import Mathlib

/-!
Shallow embedding of the queue-driven acquisition-and-labeling core of the
github-copilot-metastudy repository, together with theorems settling the
frozen claims about it.

Embedded source files:
 * `src/workflows/downloads.py`  (safe extraction, fallback chain, orchestrator)
 * `src/database/queues.py`      (labeling queue pop)
 * `src/llm/checker.py`          (response parsing and coercions)
 * `src/workflows/labeling.py`   (producer/consumer pipeline, consumer stage)

Python strings are modelled as `List Char`, Python floats as `ℚ`,
machine-level filesystem paths as lists of path components.
-/

namespace Metastudy

/-! ## POSIX path model (`os.path` as used by `downloads.py`)

A path is a flag saying whether it is absolute plus its list of components.
`os.path.abspath` resolves a path against the current working directory and
normalises `.` and `..` textually; `os.path.commonpath` on two already
normalised absolute paths is the longest common component run. -/

/-- A filesystem path: `absolute` is true when the textual path starts with
the separator; `comps` are the slash-separated components. -/
structure PyPath where
  absolute : Bool
  comps : List String
deriving DecidableEq, Repr

/-- Textual normalisation of components as done by `os.path.normpath` on an
absolute path: `.` and empty components vanish, `..` pops the previous
component (and is dropped at the root). -/
def normComps (cs : List String) : List String :=
  cs.foldl
    (fun acc c =>
      if c = "." ∨ c = "" then acc
      else if c = ".." then acc.dropLast
      else acc ++ [c])
    []

/-- Model of `os.path.join(base, p)`: an absolute `p` discards `base`. `base` is the
path given to `_safe_extract` (the scratch directory). -/
def pyJoin (base : PyPath) (p : PyPath) : PyPath :=
  if p.absolute then p else ⟨base.absolute, base.comps ++ p.comps⟩

/-- Model of `os.path.abspath(p)` with current working directory `cwd` (an absolute
component list): relative paths are resolved against `cwd`, then the result
is normalised. The result is the component list of an absolute path. -/
def pyAbsPath (cwd : List String) (p : PyPath) : List String :=
  if p.absolute then normComps p.comps else normComps (cwd ++ p.comps)

/-- Model of `downloads._is_within_directory(directory, target)`:
`os.path.commonpath([abs_directory]) == os.path.commonpath([abs_directory, abs_target])`,
i.e. the normalised absolute directory is a component-wise prefix of the
normalised absolute target. -/
def isWithinDirectory (cwd : List String) (directory target : PyPath) : Bool :=
  (pyAbsPath cwd directory).isPrefixOf (pyAbsPath cwd target)

/-- A tar archive member, reduced to the only field `_safe_extract` reads:
its `name`, interpreted as a path. -/
structure TarMember where
  name : PyPath
deriving DecidableEq, Repr

/-- The destination `os.path.join(path, member.name)` computed per member in
`downloads._safe_extract`. -/
def memberDest (path : PyPath) (m : TarMember) : PyPath :=
  pyJoin path m.name

/-- The member loop of `downloads._safe_extract`: raise
`Exception("Blocked path traversal in tar file")` at the first member whose
destination is not within `path`. -/
def checkMembers (cwd : List String) (path : PyPath) :
    List TarMember → Except String Unit
  | [] => Except.ok ()
  | m :: rest =>
      if isWithinDirectory cwd path (memberDest path m) then
        checkMembers cwd path rest
      else
        Except.error "Blocked path traversal in tar file"

/-- Model of `downloads._safe_extract(tar, path)`: the member check runs over the whole
member list first; only if it passes does `tar.extractall(path)` run. The
second component is the list of files written to disk (the members'
destinations), empty when the check raises. -/
def safeExtract (cwd : List String) (path : PyPath) (members : List TarMember) :
    Except String Unit × List PyPath :=
  match checkMembers cwd path members with
  | Except.ok () => (Except.ok (), members.map (memberDest path))
  | Except.error e => (Except.error e, [])

/-! ## Labeling queue (`database/queues.py`)

The `labeling_queue` table holds rows `(metadata_id TEXT, question_id INTEGER)`
with a primary key on the pair. A database state is modelled as the list of
rows in insertion order; the primary key keeps the list duplicate-free.
`ORDER BY metadata_id, question_id LIMIT 1` returns the row that is least in
the lexicographic order on the pair (SQL text comparison modelled as the
character-wise order on the id string). -/

/-- A row of `labeling_queue`: `(metadata_id, question_id)`. -/
abbrev Job := String × ℤ

/-- The `ORDER BY metadata_id, question_id` comparison on rows. -/
def jobLe (a b : Job) : Prop :=
  a.1 < b.1 ∨ (a.1 = b.1 ∧ a.2 ≤ b.2)

instance (a b : Job) : Decidable (jobLe a b) := by
  unfold jobLe; infer_instance

/-- Model of `SELECT metadata_id, question_id FROM labeling_queue ORDER BY
metadata_id, question_id LIMIT 1`: the least row, `none` on an empty table. -/
def selectMinRow : List Job → Option Job
  | [] => none
  | j :: rest => some (rest.foldl (fun acc x => if jobLe x acc then x else acc) j)

/-- Model of `queues.pop_next_labeling_job`: select the least row; if there is none
return `None`, otherwise `DELETE` that `(metadata_id, question_id)` pair and
return it. Select and delete happen on one connection in one transaction;
the sequential model returns the popped row together with the table state
after the commit. -/
def popNextLabelingJob (q : List Job) : Option Job × List Job :=
  match selectMinRow q with
  | none => (none, q)
  | some j => (some j, q.filter (fun x => x ≠ j))

/-- An operation on the labeling queue visible to this core: an enqueue
attempt (`INSERT ... ON CONFLICT (metadata_id, question_id) DO NOTHING`,
from `prepare_metadata_labeling`) or a `pop_next_labeling_job` call. -/
inductive QOp where
  | ins (j : Job)
  | pop
deriving DecidableEq, Repr

/-- Effect of one operation on the table state. -/
def qStep (q : List Job) : QOp → List Job
  | QOp.ins j => if j ∈ q then q else q ++ [j]
  | QOp.pop => (popNextLabelingJob q).2

/-- Table state after running a sequence of operations from `q0`. -/
def stateAfter (q0 : List Job) (ops : List QOp) : List Job :=
  ops.foldl qStep q0

/-- The row returned by the operation at index `n` of the sequence, when that
operation is a pop; `none` for enqueues, for pops of an empty table and for
out-of-range indices. -/
def popOutputAt (q0 : List Job) (ops : List QOp) (n : ℕ) : Option Job :=
  match ops[n]? with
  | some QOp.pop => (popNextLabelingJob (stateAfter q0 (ops.take n))).1
  | _ => none

/-! ## Version suffix parsing (`downloads._parse_version`, `downloads._prev_version`)

Item ids are modelled as `List Char`. The regular expressions
`v(\d+)$` (search) and `^(.*)v(\d+)$` both match exactly when the maximal
all-digit suffix of the id is nonempty and the character before it is `v`;
the greedy `.*` makes the base everything before that `v`. -/

/-- Value of a string of decimal digit characters, as `int(...)` reads it
(leading zeros allowed). -/
def natOfDigitChars (ds : List Char) : ℕ :=
  ds.foldl (fun n c => 10 * n + (c.toNat - '0'.toNat)) 0

/-- Split an id into the part before the trailing `v<digits>` and the numeric
value of the digits, when the id ends in `v` followed by one or more digits;
`none` otherwise. This is the common match of the two regular expressions
above. -/
def splitVersionTail (s : List Char) : Option (List Char × ℕ) :=
  let revDigits := s.reverse.takeWhile Char.isDigit
  if revDigits.isEmpty then none
  else
    match s.reverse.drop revDigits.length with
    | [] => none
    | c :: rest =>
        if c = 'v' then some (rest.reverse, natOfDigitChars revDigits.reverse)
        else none

/-- Model of `downloads._parse_version`: the trailing version number, defaulting to 1
when the id has no `v<digits>` suffix. -/
def parseVersion (aid : List Char) : ℕ :=
  match splitVersionTail aid with
  | some (_, v) => v
  | none => 1

/-- Model of `downloads._prev_version`: `None` when the id has no `v<digits>` suffix or
the version is ≤ 1, otherwise the id with the version decremented
(`f"{base}v{ver-1}"`). -/
def prevVersion (aid : List Char) : Option (List Char) :=
  match splitVersionTail aid with
  | none => none
  | some (base, ver) =>
      if ver ≤ 1 then none
      else some (base ++ 'v' :: (Nat.repr (ver - 1)).toList)

/-! ## Download fallback chain and orchestrator (`downloads.run_downloads`)

The external collaborators (the arXiv fetch client and the archive contents
it delivers) are an environment of oracles; everything below the environment
is translated from `run_downloads` directly. A strategy "fetch call" is an
invocation of `client.download_paper_source` or `client.download_paper_pdf`,
logged whether it succeeds or raises. -/

/-- One call to the external fetch client. -/
inductive Fetch where
  | src (aid : List Char)
  | pdf (aid : List Char)
deriving DecidableEq, Repr

/-- Environment of a `run_downloads` run: outcomes of the external fetch
calls, the members of each fetched archive, the working directory and the
configured tarball directory. -/
structure DownloadEnv where
  srcOk : List Char → Bool
  pdfOk : List Char → Bool
  archive : List Char → List TarMember
  cwd : List String
  tarballDir : PyPath

/-- The scratch directory `tarball_dir / "extracted" / aid` used by
`downloads._extract_and_copy_main_tex`. -/
def extractedDir (env : DownloadEnv) (aid : List Char) : PyPath :=
  ⟨env.tarballDir.absolute, env.tarballDir.comps ++ ["extracted", String.mk aid]⟩

/-- Whether `_extract_and_copy_main_tex` raises for the archive fetched for
`aid`: exactly when `_safe_extract` hits a path-traversal member. The later
steps of that helper (largest-`.tex` search, copy, scratch cleanup) swallow
their own errors (`continue` / inner `try`) and are modelled as non-raising. -/
def extractRaises (env : DownloadEnv) (aid : List Char) : Bool :=
  match (safeExtract env.cwd (extractedDir env aid) (env.archive aid)).1 with
  | Except.ok _ => false
  | Except.error _ => true

/-- Model of `Handler.handle` of the base class: no next handler means failure. -/
def handlerBase : List Char → Bool × List Fetch :=
  fun _ => (false, [])

/-- Model of `TarballHandler.handle`: fetch the source archive for `aid` and extract
it; any exception (failed fetch or blocked traversal during extraction) is
caught and the next handler is tried. -/
def tarballHandler (env : DownloadEnv) (next : List Char → Bool × List Fetch)
    (aid : List Char) : Bool × List Fetch :=
  if env.srcOk aid then
    if extractRaises env aid then
      let r := next aid
      (r.1, Fetch.src aid :: r.2)
    else (true, [Fetch.src aid])
  else
    let r := next aid
    (r.1, Fetch.src aid :: r.2)

/-- Model of `PdfHandler.handle`: fetch the rendered PDF for `aid`; on exception try
the next handler. -/
def pdfHandler (env : DownloadEnv) (next : List Char → Bool × List Fetch)
    (aid : List Char) : Bool × List Fetch :=
  if env.pdfOk aid then (true, [Fetch.pdf aid])
  else
    let r := next aid
    (r.1, Fetch.pdf aid :: r.2)

/-- Model of `PrevVersionTarballHandler.handle`: skip straight to the next handler
when there is no previous version; otherwise fetch and extract the previous
version's source archive, falling through on exception. -/
def prevVersionTarballHandler (env : DownloadEnv)
    (next : List Char → Bool × List Fetch) (aid : List Char) :
    Bool × List Fetch :=
  match prevVersion aid with
  | none => next aid
  | some prev =>
      if env.srcOk prev then
        if extractRaises env prev then
          let r := next aid
          (r.1, Fetch.src prev :: r.2)
        else (true, [Fetch.src prev])
      else
        let r := next aid
        (r.1, Fetch.src prev :: r.2)

/-- Model of `PrevVersionPdfHandler.handle`: skip to the next handler when there is no
previous version; otherwise fetch the previous version's PDF, falling
through on exception. -/
def prevVersionPdfHandler (env : DownloadEnv)
    (next : List Char → Bool × List Fetch) (aid : List Char) :
    Bool × List Fetch :=
  match prevVersion aid with
  | none => next aid
  | some prev =>
      if env.pdfOk prev then (true, [Fetch.pdf prev])
      else
        let r := next aid
        (r.1, Fetch.pdf prev :: r.2)

/-- The chain built per item in `run_downloads`:
`TarballHandler(PdfHandler(PrevVersionTarballHandler(PrevVersionPdfHandler())))`. -/
def downloadChain (env : DownloadEnv) (aid : List Char) : Bool × List Fetch :=
  tarballHandler env
    (pdfHandler env
      (prevVersionTarballHandler env
        (prevVersionPdfHandler env handlerBase))) aid

/-- The loop body of `run_downloads` for one pending item, given the names of
the regular files in the tarball directory at the start of the iteration:
if some file name starts with the item id, mark COMPLETED without building
the chain; otherwise run the chain, COMPLETED on success and FAILED when the
chain is exhausted (the raised `RuntimeError` is caught by the per-item
`except`). -/
def processItem (env : DownloadEnv) (files : List (List Char)) (aid : List Char) :
    String × List Fetch :=
  if files.any (fun f => aid.isPrefixOf f) then ("COMPLETED", [])
  else
    let r := downloadChain env aid
    if r.1 then ("COMPLETED", r.2) else ("FAILED", r.2)

/-- Per-item outcome of a run: the status written through
`db.set_download_status` and the fetch calls made for the item. -/
structure ItemRecord where
  aid : List Char
  status : String
  fetches : List Fetch
deriving DecidableEq, Repr

/-- Aggregate counters returned by `run_downloads`. -/
structure RunStats where
  attempted : ℕ
  completed : ℕ
  failed : ℕ
deriving DecidableEq, Repr

/-- The item loop of `run_downloads` over the pending ids. `files` is the
tarball-directory listing; tarballs written during the run by the external
fetch client are not tracked (the claims about the existing-artifact check
concern artifacts present when an item's iteration starts). -/
def runDownloads (env : DownloadEnv) (files : List (List Char))
    (pending : List (List Char)) : RunStats × List ItemRecord :=
  pending.foldl
    (fun acc aid =>
      let r := processItem env files aid
      (⟨acc.1.attempted + 1,
        acc.1.completed + (if r.1 = "COMPLETED" then 1 else 0),
        acc.1.failed + (if r.1 = "FAILED" then 1 else 0)⟩,
       acc.2 ++ [⟨aid, r.1, r.2⟩]))
    (⟨0, 0, 0⟩, [])

/-! ## JSON values and `json.loads` (used by `llm/checker.py`)

`json.loads` is modelled by a recursive-descent reader over `List Char`,
covering the strict JSON grammar (objects, arrays, strings with the standard
escapes, numbers, `true`/`false`/`null`). `NaN`/`Infinity` extensions and
surrogate-pair combining of `\uXXXX` escapes are not modelled; no claim
touches them. -/

inductive Json where
  | nullVal
  | boolVal (b : Bool)
  | numVal (q : ℚ)
  | strVal (s : List Char)
  | arrVal (xs : List Json)
  | objVal (fields : List (List Char × Json))

/-- JSON insignificant whitespace. -/
def jsonWs (c : Char) : Bool :=
  c = ' ' || c = '\t' || c = '\n' || c = '\r'

def skipWs (s : List Char) : List Char :=
  s.dropWhile jsonWs

/-- Hexadecimal digit test. -/
def isHexDigitChar (c : Char) : Prop :=
  c.isDigit ∨ ('a' ≤ c ∧ c ≤ 'f') ∨ ('A' ≤ c ∧ c ≤ 'F')

instance (c : Char) : Decidable (isHexDigitChar c) := by
  unfold isHexDigitChar; infer_instance

/-- Value of a hexadecimal digit. -/
def hexVal (c : Char) : ℕ :=
  if c.isDigit then c.toNat - '0'.toNat
  else if 'a' ≤ c ∧ c ≤ 'f' then c.toNat - 'a'.toNat + 10
  else c.toNat - 'A'.toNat + 10

/-- Body of a JSON string after the opening quote: the decoded characters and
the input after the closing quote. -/
def parseStringBody : ℕ → List Char → Option (List Char × List Char)
  | 0, _ => none
  | _ + 1, [] => none
  | fuel + 1, c :: rest =>
      if c = '"' then some ([], rest)
      else if c.toNat < 32 then none
      else if c = '\\' then
        match rest with
        | [] => none
        | e :: rest2 =>
            if e = '"' ∨ e = '\\' ∨ e = '/' then
              (parseStringBody fuel rest2).map (fun p => (e :: p.1, p.2))
            else if e = 'b' then
              (parseStringBody fuel rest2).map (fun p => ('\x08' :: p.1, p.2))
            else if e = 'f' then
              (parseStringBody fuel rest2).map (fun p => ('\x0c' :: p.1, p.2))
            else if e = 'n' then
              (parseStringBody fuel rest2).map (fun p => ('\n' :: p.1, p.2))
            else if e = 'r' then
              (parseStringBody fuel rest2).map (fun p => ('\x0d' :: p.1, p.2))
            else if e = 't' then
              (parseStringBody fuel rest2).map (fun p => ('\t' :: p.1, p.2))
            else if e = 'u' then
              match rest2 with
              | h1 :: h2 :: h3 :: h4 :: rest3 =>
                  if isHexDigitChar h1 ∧ isHexDigitChar h2 ∧ isHexDigitChar h3 ∧
                      isHexDigitChar h4 then
                    (parseStringBody fuel rest3).map
                      (fun p =>
                        (Char.ofNat
                            (hexVal h1 * 4096 + hexVal h2 * 256 +
                              hexVal h3 * 16 + hexVal h4) :: p.1, p.2))
                  else none
              | _ => none
            else none
      else (parseStringBody fuel rest).map (fun p => (c :: p.1, p.2))

/-- A maximal nonempty run of decimal digits. -/
def parseDigitRun (s : List Char) : Option (List Char × List Char) :=
  let ds := s.takeWhile Char.isDigit
  if ds.isEmpty then none else some (ds, s.drop ds.length)

/-- Value of the decimal notation `m · 10^(-f) · 10^e` (signed mantissa `m`,
`f` fraction digits, exponent `e`), written with `Rat.divInt` so that the
kernel can evaluate it on concrete digits. -/
def decimalToRat (m : ℤ) (f : ℕ) (e : ℤ) : ℚ :=
  if 0 ≤ e then Rat.divInt (m * (10 : ℤ) ^ e.toNat) ((10 : ℤ) ^ f)
  else Rat.divInt m ((10 : ℤ) ^ f * (10 : ℤ) ^ (-e).toNat)

/-- A strict JSON number starting at the head of the input, as an exact
rational (Python reads it as an int or a float; the claims about coerced
confidences concern order and interval facts that the exact value carries). -/
def parseJsonNumber (s : List Char) : Option (ℚ × List Char) :=
  let signSplit : Bool × List Char :=
    match s with
    | '-' :: r => (true, r)
    | _ => (false, s)
  match parseDigitRun signSplit.2 with
  | none => none
  | some (ids, s2) =>
      if ids.headD '0' = '0' ∧ ids.length ≠ 1 then none
      else
        let fracSplit : List Char × List Char :=
          match s2 with
          | '.' :: r =>
              match parseDigitRun r with
              | some (fds, s3) => (fds, s3)
              | none => ([], s2)
          | _ => ([], s2)
        let expSplit : ℤ × List Char := expValue fracSplit.2
        let mant : ℤ :=
          if signSplit.1 then -(natOfDigitChars (ids ++ fracSplit.1) : ℤ)
          else (natOfDigitChars (ids ++ fracSplit.1) : ℤ)
        some (decimalToRat mant fracSplit.1.length expSplit.1, expSplit.2)
where
  /-- Optional exponent part `([eE][+-]?digits)?`; when the pattern does not
  match, nothing is consumed and the exponent is 0. -/
  expValue (t : List Char) : ℤ × List Char :=
    match t with
    | 'e' :: r | 'E' :: r =>
        let es : Bool × List Char :=
          match r with
          | '-' :: r2 => (true, r2)
          | '+' :: r2 => (false, r2)
          | _ => (false, r)
        match parseDigitRun es.2 with
        | some (eds, s4) =>
            ((if es.1 then -(natOfDigitChars eds : ℤ) else (natOfDigitChars eds : ℤ)), s4)
        | none => (0, t)
    | _ => (0, t)

mutual

/-- A JSON value starting at the head of the input (leading whitespace
allowed); returns the value and the remaining input. -/
def parseVal : ℕ → List Char → Option (Json × List Char)
  | 0, _ => none
  | fuel + 1, s =>
      match skipWs s with
      | [] => none
      | c :: rest =>
          if c = '\x7b' then
            match skipWs rest with
            | '\x7d' :: rest2 => some (Json.objVal [], rest2)
            | s2 => (parseMembers fuel s2).map (fun p => (Json.objVal p.1, p.2))
          else if c = '[' then
            match skipWs rest with
            | ']' :: rest2 => some (Json.arrVal [], rest2)
            | s2 => (parseElems fuel s2).map (fun p => (Json.arrVal p.1, p.2))
          else if c = '"' then
            (parseStringBody (rest.length + 1) rest).map
              (fun p => (Json.strVal p.1, p.2))
          else if c = 't' then
            if rest.take 3 = ['r', 'u', 'e'] then
              some (Json.boolVal true, rest.drop 3)
            else none
          else if c = 'f' then
            if rest.take 4 = ['a', 'l', 's', 'e'] then
              some (Json.boolVal false, rest.drop 4)
            else none
          else if c = 'n' then
            if rest.take 3 = ['u', 'l', 'l'] then
              some (Json.nullVal, rest.drop 3)
            else none
          else
            (parseJsonNumber (c :: rest)).map (fun p => (Json.numVal p.1, p.2))

/-- One or more `"key": value` members followed by the closing brace. -/
def parseMembers : ℕ → List Char → Option (List (List Char × Json) × List Char)
  | 0, _ => none
  | fuel + 1, s =>
      match skipWs s with
      | '"' :: rest =>
          match parseStringBody (rest.length + 1) rest with
          | none => none
          | some (key, afterKey) =>
              match skipWs afterKey with
              | ':' :: afterColon =>
                  match parseVal fuel afterColon with
                  | none => none
                  | some (v, afterVal) =>
                      match skipWs afterVal with
                      | ',' :: afterComma =>
                          (parseMembers fuel afterComma).map
                            (fun p => ((key, v) :: p.1, p.2))
                      | '\x7d' :: rest2 => some ([(key, v)], rest2)
                      | _ => none
              | _ => none
      | _ => none

/-- One or more array elements followed by the closing bracket. -/
def parseElems : ℕ → List Char → Option (List Json × List Char)
  | 0, _ => none
  | fuel + 1, s =>
      match parseVal fuel s with
      | none => none
      | some (v, rest) =>
          match skipWs rest with
          | ',' :: rest2 => (parseElems fuel rest2).map (fun p => (v :: p.1, p.2))
          | ']' :: rest2 => some ([v], rest2)
          | _ => none

end

/-- Model of `json.loads(text)`: parse one value and require only whitespace after it;
`none` models `json.JSONDecodeError`. -/
def jsonLoads (text : List Char) : Option Json :=
  match parseVal (text.length + 1) text with
  | some (v, rest) => if (skipWs rest).isEmpty then some v else none
  | none => none

/-! ## Response parsing (`llm/checker.py`)

`LLMChecker._parse_structured`, `_parse_answer`, `_contains_true_false`,
`_coerce_answer_bool` and `_coerce_confidence`, over the raw backend response
modelled as `List Char`. A Python value reached from a JSON parse is a
`Json`; `Option Json` carries `dict.get`'s possible `None`. -/

/-- Python `str.isspace` characters relevant to `str.strip()`. -/
def pyIsSpace (c : Char) : Bool :=
  c = ' ' || c = '\t' || c = '\n' || c = '\r' || c = '\x0b' || c = '\x0c'

/-- Python `str.strip()`. -/
def pyStrip (s : List Char) : List Char :=
  ((s.dropWhile pyIsSpace).reverse.dropWhile pyIsSpace).reverse

/-- Python `str.lower()` (ASCII; the compared literals are ASCII). -/
def pyLower (s : List Char) : List Char :=
  s.map Char.toLower

/-- Python `float(s)` on a string: optional surrounding whitespace and sign,
digits with an optional fraction and exponent, the whole string consumed.
(`inf`/`nan` literals and `_` separators are not modelled; no claim uses
them.) -/
def pyFloatOfStr (s : List Char) : Option ℚ :=
  let t := pyStrip s
  let signSplit : Bool × List Char :=
    match t with
    | '+' :: r => (false, r)
    | '-' :: r => (true, r)
    | _ => (false, t)
  let ids := signSplit.2.takeWhile Char.isDigit
  let rest1 := signSplit.2.drop ids.length
  let fracSplit : List Char × List Char :=
    match rest1 with
    | '.' :: r => (r.takeWhile Char.isDigit, r.drop (r.takeWhile Char.isDigit).length)
    | _ => ([], rest1)
  if ids.isEmpty ∧ fracSplit.1.isEmpty then none
  else
    let expSplit : Option (ℤ × List Char) :=
      match fracSplit.2 with
      | 'e' :: r | 'E' :: r =>
          let es : Bool × List Char :=
            match r with
            | '+' :: r2 => (false, r2)
            | '-' :: r2 => (true, r2)
            | _ => (false, r)
          let eds := es.2.takeWhile Char.isDigit
          if eds.isEmpty then none
          else
            some ((if es.1 then -(natOfDigitChars eds : ℤ) else (natOfDigitChars eds : ℤ)),
              es.2.drop eds.length)
      | r => some (0, r)
    match expSplit with
    | none => none
    | some (e, rest2) =>
        if rest2.isEmpty then
          let mant : ℤ :=
            if signSplit.1 then -(natOfDigitChars (ids ++ fracSplit.1) : ℤ)
            else (natOfDigitChars (ids ++ fracSplit.1) : ℤ)
          some (decimalToRat mant fracSplit.1.length e)
        else none

/-- Python `obj.get(k)` for an object decoded by `json.loads`: the value of
the last occurrence of the key, `None` when absent. -/
def lookupField (fields : List (List Char × Json)) (k : List Char) : Option Json :=
  ((fields.filter (fun f => f.1 == k)).getLast?).map Prod.snd

/-- Python `k in obj`. -/
def hasField (fields : List (List Char × Json)) (k : List Char) : Bool :=
  fields.any (fun f => f.1 == k)

/-- Model of `checker._coerce_answer_bool(value)`: Python `bool`s pass through,
boolean-like strings are mapped (`"true"/"yes"/"ja"` → true,
`"false"/"no"/"nee"` → false, after `strip().lower()`), everything else —
including `None` from a missing key — is `None`. -/
def coerceAnswerBool : Option Json → Option Bool
  | some (Json.boolVal b) => some b
  | some (Json.strVal s) =>
      let low := pyLower (pyStrip s)
      if low = "true".toList ∨ low = "yes".toList ∨ low = "ja".toList then some true
      else if low = "false".toList ∨ low = "no".toList ∨ low = "nee".toList then
        some false
      else none
  | _ => none

/-- The percentage rescale and clamp inside `checker._coerce_confidence`:
`if conf > 1.0 and conf <= 100.0: conf = conf / 100.0` followed by
`conf = max(0.0, min(1.0, conf))`. The division is written with `Rat.divInt`
so the kernel can evaluate it; `divInt_num_den_mul_100` below shows it is
division by 100. -/
def scaleClampConfidence (conf : ℚ) : ℚ :=
  let conf2 := if 1 < conf ∧ conf ≤ 100 then Rat.divInt conf.num (conf.den * 100) else conf
  max 0 (min 1 conf2)

/-- Model of `checker._coerce_confidence(value)`: `None` stays `None`, `float(value)`
is taken (booleans are Python numbers; non-numeric strings and non-scalar
shapes raise and yield `None`), then the result is rescaled and clamped. -/
def coerceConfidence : Option Json → Option ℚ
  | none => none
  | some Json.nullVal => none
  | some (Json.numVal q) => some (scaleClampConfidence q)
  | some (Json.boolVal b) => some (scaleClampConfidence (if b then 1 else 0))
  | some (Json.strVal s) =>
      match pyFloatOfStr s with
      | some q => some (scaleClampConfidence q)
      | none => none
  | some _ => none

/-- Python `pat in s` on strings: `pat` occurs as a contiguous run of `s`. -/
def containsSub (pat : List Char) : List Char → Bool
  | [] => pat.isEmpty
  | c :: tail => pat.isPrefixOf (c :: tail) || containsSub pat tail

/-- Model of `checker._contains_true_false(text)`: substring scan over
`text.strip().lower()`. -/
def containsTrueFalse (text : List Char) : Option Bool :=
  let low := pyLower (pyStrip text)
  if containsSub ("\"answer\": true".toList) low ∨ containsSub ("\ntrue\n".toList) low ∨
      low = "true".toList then some true
  else if containsSub ("\"answer\": false".toList) low ∨
      containsSub ("\nfalse\n".toList) low ∨ low = "false".toList then some false
  else none

/-- Model of `checker._parse_answer(text)`: strict JSON with an `answer` field when the
text parses to a dict; otherwise the `_contains_true_false` scan, and as a
last resort `_coerce_answer_bool` on the whole text as a string. -/
def parseAnswer (text : List Char) : Option Bool :=
  match jsonLoads text with
  | some (Json.objVal fields) => coerceAnswerBool (lookupField fields "answer".toList)
  | _ =>
      match containsTrueFalse text with
      | some b => some b
      | none => coerceAnswerBool (some (Json.strVal text))

/-- Model of `checker._parse_structured(text)`: when the text parses to a dict, coerce
its `answer` and its `confidence` (falling back to `confidence_score` when
the `confidence` key is absent); otherwise fall back to `_parse_answer` with
no confidence. -/
def parseStructured (text : List Char) : Option Bool × Option ℚ :=
  match jsonLoads text with
  | some (Json.objVal fields) =>
      (coerceAnswerBool (lookupField fields "answer".toList),
       coerceConfidence
         (if hasField fields "confidence".toList then
            lookupField fields "confidence".toList
          else lookupField fields "confidence_score".toList))
  | _ => (parseAnswer text, none)

/-! ## Labeling pipeline consumer (`workflows/labeling.py`)

The consumer stage (`consumer`, lines 76–117) loops on the enriched-jobs
queue and, for every item received, immediately creates a
`classify_and_handle` task (line 112) with no guard: no semaphore or other
limiter appears anywhere on the path from task creation to the backend call
(`classify_and_handle` → `checker.classify_title_abstract_structured_async`
→ `AsyncClient.chat`). The cooperative scheduling of the event loop is a
small-step relation; enriched jobs are identified by numbers, since the
consumer's scheduling does not read their contents. -/

/-- Scheduler-visible state of one consumer run: jobs still in
`enriched_queue`; created tasks that have not yet reached their backend
call; tasks whose backend call is in flight; tasks whose call completed. -/
structure ConsumerState where
  pending : List ℕ
  spawned : List ℕ
  inFlight : List ℕ
  finished : List ℕ
deriving DecidableEq, Repr

/-- One cooperative-scheduling step of the consumer stage. `take` is an
iteration of the `while True` loop: dequeue one item and `create_task` for
it, unconditionally. `start` runs a created task up to the `await` of its
backend call, submitting the call; nothing guards this transition. `complete`
is a backend response arriving. -/
inductive ConsumerStep : ConsumerState → ConsumerState → Prop
  | take (j : ℕ) (rest spawned inFlight finished : List ℕ) :
      ConsumerStep ⟨j :: rest, spawned, inFlight, finished⟩
        ⟨rest, spawned ++ [j], inFlight, finished⟩
  | start (pending s1 s2 : List ℕ) (j : ℕ) (inFlight finished : List ℕ) :
      ConsumerStep ⟨pending, s1 ++ j :: s2, inFlight, finished⟩
        ⟨pending, s1 ++ s2, inFlight ++ [j], finished⟩
  | complete (pending spawned i1 i2 : List ℕ) (j : ℕ) (finished : List ℕ) :
      ConsumerStep ⟨pending, spawned, i1 ++ j :: i2, finished⟩
        ⟨pending, spawned, i1 ++ i2, finished ++ [j]⟩

/-- States reachable by the consumer's event loop. -/
def ConsumerReachable (s t : ConsumerState) : Prop :=
  Relation.ReflTransGen ConsumerStep s t

/-- Start of a consumer run over a batch of enriched jobs. -/
def initConsumer (jobs : List ℕ) : ConsumerState :=
  ⟨jobs, [], [], []⟩

/-- Environment used to exercise the handler chain on an archive with a
path-traversal member: the source fetch succeeds for every id, the PDF fetch
fails, and the archive fetched for `2001v1` contains an entry that climbs
out of the scratch directory. -/
def demoTraversalEnv : DownloadEnv where
  srcOk := fun _ => true
  pdfOk := fun _ => false
  archive := fun a =>
    if a = "2001v1".toList then
      [⟨⟨false, ["..", "..", "..", "..", "etc", "passwd"]⟩⟩]
    else []
  cwd := ["srv"]
  tarballDir := ⟨false, ["data", "tarball"]⟩

/-! # Theorems -/

theorem checkMembers_error (cwd : List String) (path : PyPath)
    (members : List TarMember) (m : TarMember) (hm : m ∈ members)
    (hout : isWithinDirectory cwd path (memberDest path m) = false) :
    checkMembers cwd path members = Except.error "Blocked path traversal in tar file" := by
  induction members with
  | nil => cases hm
  | cons a rest ih =>
      unfold checkMembers
      rcases List.mem_cons.mp hm with h | h
      · subst h
        simp [hout]
      · split
        · exact ih h
        · rfl

/-- C7: for every archive and every member of it (with arbitrarily nested
`..` components), if the member's resolved destination falls outside the
scratch directory then `_safe_extract` raises the traversal error and no
file of the archive is written. -/
theorem safe_extract_blocks_traversal (cwd : List String) (path : PyPath)
    (members : List TarMember) (m : TarMember) (hm : m ∈ members)
    (hout : isWithinDirectory cwd path (memberDest path m) = false) :
    (safeExtract cwd path members).1 =
        Except.error "Blocked path traversal in tar file" ∧
      (safeExtract cwd path members).2 = [] := by
  unfold safeExtract
  rw [checkMembers_error cwd path members m hm hout]
  exact ⟨rfl, rfl⟩

/-- Witness for C7: a member climbing six levels of `..` out of the item's
scratch directory is blocked and nothing is extracted. -/
theorem safe_extract_blocks_traversal_witness :
    (safeExtract ["srv"] ⟨false, ["data", "tarball", "extracted", "2301.00001v2"]⟩
        [⟨⟨false, ["..", "..", "..", "..", "..", "..", "etc", "passwd"]⟩⟩]).1 =
        Except.error "Blocked path traversal in tar file" ∧
      (safeExtract ["srv"] ⟨false, ["data", "tarball", "extracted", "2301.00001v2"]⟩
        [⟨⟨false, ["..", "..", "..", "..", "..", "..", "etc", "passwd"]⟩⟩]).2 = [] :=
  safe_extract_blocks_traversal ["srv"]
    ⟨false, ["data", "tarball", "extracted", "2301.00001v2"]⟩
    [⟨⟨false, ["..", "..", "..", "..", "..", "..", "etc", "passwd"]⟩⟩]
    ⟨⟨false, ["..", "..", "..", "..", "..", "..", "etc", "passwd"]⟩⟩
    (by decide) (by decide)

theorem prevVersion_of_parseVersion_le_one (aid : List Char)
    (h : parseVersion aid ≤ 1) : prevVersion aid = none := by
  unfold parseVersion at h
  unfold prevVersion
  cases hs : splitVersionTail aid with
  | none => rfl
  | some p =>
      rw [hs] at h
      simp only
      rw [if_pos]
      exact h

theorem downloadChain_eq (env : DownloadEnv) (aid : List Char) :
    downloadChain env aid =
      if env.srcOk aid = true ∧ extractRaises env aid = false then
        (true, [Fetch.src aid])
      else if env.pdfOk aid = true then (true, [Fetch.src aid, Fetch.pdf aid])
      else
        match prevVersion aid with
        | none => (false, [Fetch.src aid, Fetch.pdf aid])
        | some prev =>
            if env.srcOk prev = true ∧ extractRaises env prev = false then
              (true, [Fetch.src aid, Fetch.pdf aid, Fetch.src prev])
            else if env.pdfOk prev = true then
              (true, [Fetch.src aid, Fetch.pdf aid, Fetch.src prev, Fetch.pdf prev])
            else
              (false, [Fetch.src aid, Fetch.pdf aid, Fetch.src prev, Fetch.pdf prev]) := by
  unfold downloadChain tarballHandler pdfHandler prevVersionTarballHandler
    prevVersionPdfHandler handlerBase
  cases hsrc : env.srcOk aid <;> cases hx : extractRaises env aid <;>
    cases hpdf : env.pdfOk aid <;> cases hprev : prevVersion aid <;>
    simp [hsrc, hx, hpdf, hprev]
  all_goals
    rename_i prev
    cases hps : env.srcOk prev <;> cases hpx : extractRaises env prev <;>
      cases hpp : env.pdfOk prev <;> simp [hps, hpx, hpp]

/-- C4: with no pre-existing artifact, acquisition strategies run strictly in
the order exact-version source archive, exact-version rendered document,
previous-version source archive, previous-version rendered document,
stopping at the first success; when the version is ≤ 1 only the two
exact-version fetches can occur; and the item is marked FAILED exactly when
every applicable strategy has failed. -/
theorem download_fallback_strict_order (env : DownloadEnv) (files : List (List Char))
    (aid : List Char)
    (hnoart : files.any (fun f => aid.isPrefixOf f) = false) :
    (downloadChain env aid =
      if env.srcOk aid = true ∧ extractRaises env aid = false then
        (true, [Fetch.src aid])
      else if env.pdfOk aid = true then (true, [Fetch.src aid, Fetch.pdf aid])
      else
        match prevVersion aid with
        | none => (false, [Fetch.src aid, Fetch.pdf aid])
        | some prev =>
            if env.srcOk prev = true ∧ extractRaises env prev = false then
              (true, [Fetch.src aid, Fetch.pdf aid, Fetch.src prev])
            else if env.pdfOk prev = true then
              (true, [Fetch.src aid, Fetch.pdf aid, Fetch.src prev, Fetch.pdf prev])
            else
              (false, [Fetch.src aid, Fetch.pdf aid, Fetch.src prev, Fetch.pdf prev])) ∧
    (parseVersion aid ≤ 1 →
      ∀ g ∈ (downloadChain env aid).2, g = Fetch.src aid ∨ g = Fetch.pdf aid) ∧
    ((processItem env files aid).1 = "FAILED" ↔
      (env.srcOk aid = false ∨ extractRaises env aid = true) ∧
        env.pdfOk aid = false ∧
        ∀ prev, prevVersion aid = some prev →
          (env.srcOk prev = false ∨ extractRaises env prev = true) ∧
            env.pdfOk prev = false) := by
  refine ⟨downloadChain_eq env aid, ?_, ?_⟩
  · intro hver g hg
    rw [downloadChain_eq env aid, prevVersion_of_parseVersion_le_one aid hver] at hg
    split at hg <;> [skip; split at hg] <;>
      simp only [List.mem_cons, List.mem_singleton, List.not_mem_nil] at hg <;> tauto
  · unfold processItem
    rw [hnoart, downloadChain_eq env aid]
    simp only [Bool.false_eq_true, if_false]
    cases hsrc : env.srcOk aid <;> cases hx : extractRaises env aid <;>
      cases hpdf : env.pdfOk aid <;> cases hprev : prevVersion aid <;>
      simp [hsrc, hx, hpdf, hprev]
    all_goals
      rename_i prev
      cases hps : env.srcOk prev <;> cases hpx : extractRaises env prev <;>
        cases hpp : env.pdfOk prev <;> simp [hps, hpx, hpp]

/-- Witness for C4: an id with version 3 and all fetches failing runs exactly
the four strategies in order and ends FAILED. -/
theorem download_fallback_strict_order_witness :
    (processItem
        ⟨fun _ => false, fun _ => false, fun _ => [], [], ⟨false, ["data", "tarball"]⟩⟩
        [] ("1001v3".toList)).1 = "FAILED" := by
  have h := download_fallback_strict_order
    ⟨fun _ => false, fun _ => false, fun _ => [], [], ⟨false, ["data", "tarball"]⟩⟩
    [] ("1001v3".toList) (by decide)
  exact h.2.2.mpr (by decide)

theorem runDownloads_snd_eq (env : DownloadEnv) (files : List (List Char))
    (pending : List (List Char)) :
    (runDownloads env files pending).2 =
      pending.map (fun aid =>
        ⟨aid, (processItem env files aid).1, (processItem env files aid).2⟩) := by
  unfold runDownloads
  suffices h : ∀ (acc : RunStats × List ItemRecord),
      (pending.foldl
        (fun acc aid =>
          let r := processItem env files aid
          (⟨acc.1.attempted + 1,
            acc.1.completed + (if r.1 = "COMPLETED" then 1 else 0),
            acc.1.failed + (if r.1 = "FAILED" then 1 else 0)⟩,
           acc.2 ++ [⟨aid, r.1, r.2⟩])) acc).2 =
      acc.2 ++ pending.map (fun aid =>
        ⟨aid, (processItem env files aid).1, (processItem env files aid).2⟩) by
    simpa using h (⟨0, 0, 0⟩, [])
  induction pending with
  | nil => intro acc; simp
  | cons a rest ih =>
      intro acc
      simp only [List.foldl_cons, List.map_cons]
      rw [ih]
      simp

theorem runDownloads_length (env : DownloadEnv) (files : List (List Char))
    (pending : List (List Char)) :
    (runDownloads env files pending).2.length = pending.length := by
  rw [runDownloads_snd_eq]
  exact List.length_map pending _

/-- C8: when some file in the tarball directory has a name starting with the
item id, a run records COMPLETED for that item and performs no fetch call
for it. -/
theorem existing_artifact_completed_without_fetch (env : DownloadEnv)
    (files : List (List Char)) (pending : List (List Char)) (aid : List Char)
    (hmem : aid ∈ pending)
    (hart : ∃ f ∈ files, aid.isPrefixOf f = true) :
    (∃ rec ∈ (runDownloads env files pending).2, rec.aid = aid) ∧
      ∀ rec ∈ (runDownloads env files pending).2, rec.aid = aid →
        rec.status = "COMPLETED" ∧ rec.fetches = [] := by
  have hany : files.any (fun f => aid.isPrefixOf f) = true := by
    rw [List.any_eq_true]
    rcases hart with ⟨f, hf, hpre⟩
    exact ⟨f, hf, hpre⟩
  have hitem : processItem env files aid = ("COMPLETED", []) := by
    unfold processItem
    rw [hany]
    simp
  rw [runDownloads_snd_eq]
  constructor
  · refine ⟨⟨aid, (processItem env files aid).1, (processItem env files aid).2⟩, ?_, rfl⟩
    exact List.mem_map_of_mem _ hmem
  · intro rec hrec heq
    rcases List.mem_map.mp hrec with ⟨b, _hb, hbe⟩
    subst hbe
    simp only at heq
    subst heq
    rw [hitem]
    exact ⟨rfl, rfl⟩

/-- Witness for C8: an item whose tarball is already on disk is recorded
COMPLETED with an empty fetch list even though every fetch would fail. -/
theorem existing_artifact_completed_without_fetch_witness :
    (∃ rec ∈ (runDownloads
        ⟨fun _ => false, fun _ => false, fun _ => [], [], ⟨false, ["data", "tarball"]⟩⟩
        ["1001v3.tar.gz".toList] [("1001v3".toList)]).2, rec.aid = "1001v3".toList) ∧
      ∀ rec ∈ (runDownloads
        ⟨fun _ => false, fun _ => false, fun _ => [], [], ⟨false, ["data", "tarball"]⟩⟩
        ["1001v3.tar.gz".toList] [("1001v3".toList)]).2, rec.aid = "1001v3".toList →
        rec.status = "COMPLETED" ∧ rec.fetches = [] :=
  existing_artifact_completed_without_fetch
    ⟨fun _ => false, fun _ => false, fun _ => [], [], ⟨false, ["data", "tarball"]⟩⟩
    ["1001v3.tar.gz".toList] [("1001v3".toList)] ("1001v3".toList)
    (by decide) (by decide)

/-- C10: the existing-artifact check only asks whether some file name starts
with the item id, so item `1234v1` — whose id is a proper prefix of the
distinct id `1234v12` — is marked COMPLETED with zero fetch calls when the
only file on disk is `1234v12`'s artifact `1234v12.tar.gz`. -/
theorem artifact_name_check_prefix_collision :
    ("1234v1".toList ≠ "1234v12".toList) ∧
      List.isPrefixOf ("1234v1".toList) ("1234v12".toList) = true ∧
      List.isPrefixOf ("1234v12".toList) ("1234v12.tar.gz".toList) = true ∧
      processItem
          ⟨fun _ => true, fun _ => true, fun _ => [], [], ⟨false, ["data", "tarball"]⟩⟩
          ["1234v12.tar.gz".toList] ("1234v1".toList) = ("COMPLETED", []) := by
  decide

/-- Counterexample to C2: in `demoTraversalEnv` the archive for `2001v1`
contains a traversal entry and extraction raises, yet the handler catches it,
the next strategy (the PDF fetch) is still attempted, the item ends with the
per-item status FAILED, and the batch continues and completes the following
item — the violation neither propagates out of the per-item attempt nor
aborts the run. -/
theorem archive_violation_downgraded_counterexample :
    extractRaises demoTraversalEnv ("2001v1".toList) = true ∧
      downloadChain demoTraversalEnv ("2001v1".toList) =
        (false, [Fetch.src ("2001v1".toList), Fetch.pdf ("2001v1".toList)]) ∧
      runDownloads demoTraversalEnv [] ["2001v1".toList, "2002v1".toList] =
        (⟨2, 1, 1⟩,
         [⟨"2001v1".toList, "FAILED",
            [Fetch.src ("2001v1".toList), Fetch.pdf ("2001v1".toList)]⟩,
          ⟨"2002v1".toList, "COMPLETED", [Fetch.src ("2002v1".toList)]⟩]) := by
  decide

/-- C2 amended: an archive-integrity violation aborts the extraction of that
archive, but `TarballHandler.handle` catches the exception and falls through
to the remaining strategies (logging the source fetch), and the batch loop
records an outcome for every pending item rather than aborting; exhaustion
of the remaining strategies yields a per-item Failed status. -/
theorem archive_violation_caught_per_item (env : DownloadEnv)
    (files : List (List Char)) (pending : List (List Char)) (aid : List Char)
    (hsrc : env.srcOk aid = true) (hx : extractRaises env aid = true) :
    downloadChain env aid =
      ((pdfHandler env
          (prevVersionTarballHandler env (prevVersionPdfHandler env handlerBase))
          aid).1,
        Fetch.src aid ::
          (pdfHandler env
            (prevVersionTarballHandler env (prevVersionPdfHandler env handlerBase))
            aid).2) ∧
      (runDownloads env files pending).2.length = pending.length := by
  constructor
  · unfold downloadChain tarballHandler
    rw [hsrc, hx]
    simp
  · exact runDownloads_length env files pending

/-- Witness for the amended C2. -/
theorem archive_violation_caught_per_item_witness :
    downloadChain demoTraversalEnv ("2001v1".toList) =
      ((pdfHandler demoTraversalEnv
          (prevVersionTarballHandler demoTraversalEnv
            (prevVersionPdfHandler demoTraversalEnv handlerBase))
          ("2001v1".toList)).1,
        Fetch.src ("2001v1".toList) ::
          (pdfHandler demoTraversalEnv
            (prevVersionTarballHandler demoTraversalEnv
              (prevVersionPdfHandler demoTraversalEnv handlerBase))
            ("2001v1".toList)).2) ∧
      (runDownloads demoTraversalEnv [] ["2001v1".toList, "2002v1".toList]).2.length =
        ["2001v1".toList, "2002v1".toList].length :=
  archive_violation_caught_per_item demoTraversalEnv [] ["2001v1".toList, "2002v1".toList]
    ("2001v1".toList) (by decide) (by decide)

theorem foldMin_mem (a : Job) (l : List Job) :
    l.foldl (fun acc x => if jobLe x acc then x else acc) a ∈ a :: l := by
  induction l generalizing a with
  | nil => simp
  | cons x xs ih =>
      simp only [List.foldl_cons]
      rcases List.mem_cons.mp (ih (if jobLe x a then x else a)) with h | h
      · rw [h]
        split
        · exact List.mem_cons_of_mem _ (List.mem_cons_self _ _)
        · exact List.mem_cons_self _ _
      · exact List.mem_cons_of_mem _ (List.mem_cons_of_mem _ h)

theorem selectMinRow_mem (q : List Job) (j : Job) (h : selectMinRow q = some j) :
    j ∈ q := by
  cases q with
  | nil => cases h
  | cons a rest =>
      unfold selectMinRow at h
      have := foldMin_mem a rest
      rw [Option.some_inj.mp h] at this
      exact this

theorem pop_fst_mem (q : List Job) (p : Job)
    (h : (popNextLabelingJob q).1 = some p) : p ∈ q := by
  unfold popNextLabelingJob at h
  cases hs : selectMinRow q with
  | none => rw [hs] at h; cases h
  | some j =>
      rw [hs] at h
      simp only at h
      have hjp : j = p := Option.some_inj.mp h
      rw [hjp] at hs
      exact selectMinRow_mem q p hs

theorem pop_fst_not_mem_snd (q : List Job) (p : Job)
    (h : (popNextLabelingJob q).1 = some p) : p ∉ (popNextLabelingJob q).2 := by
  unfold popNextLabelingJob at h ⊢
  cases hs : selectMinRow q with
  | none => rw [hs] at h; cases h
  | some j =>
      rw [hs] at h
      simp only at h ⊢
      rw [← Option.some_inj.mp h]
      intro hmem
      have := List.mem_filter.mp hmem
      simp at this

theorem qStep_not_mem (q : List Job) (p : Job) (op : QOp) (h : p ∉ q)
    (hop : op ≠ QOp.ins p) : p ∉ qStep q op := by
  cases op with
  | ins j =>
      show p ∉ if j ∈ q then q else q ++ [j]
      by_cases hq : j ∈ q
      · rw [if_pos hq]
        exact h
      · rw [if_neg hq]
        intro hmem
        rcases List.mem_append.mp hmem with h2 | h2
        · exact h h2
        · rw [List.mem_singleton.mp h2] at hop
          exact hop rfl
  | pop =>
      intro hmem
      unfold qStep popNextLabelingJob at hmem
      cases hs : selectMinRow q with
      | none => rw [hs] at hmem; exact h hmem
      | some j =>
          rw [hs] at hmem
          simp only at hmem
          exact h (List.mem_filter.mp hmem).1

theorem stateAfter_take_succ (q0 : List Job) (ops : List QOp) (n : ℕ) :
    stateAfter q0 (ops.take (n + 1)) =
      match ops[n]? with
      | some op => qStep (stateAfter q0 (ops.take n)) op
      | none => stateAfter q0 (ops.take n) := by
  unfold stateAfter
  rw [List.take_succ, List.foldl_append]
  cases ops[n]? <;> rfl

theorem not_mem_stateAfter_of_no_ins (q0 : List Job) (ops : List QOp) (p : Job) :
    ∀ (d n : ℕ), p ∉ stateAfter q0 (ops.take n) →
      (∀ m, n ≤ m → m < n + d → ops[m]? ≠ some (QOp.ins p)) →
      p ∉ stateAfter q0 (ops.take (n + d)) := by
  intro d
  induction d with
  | zero => intro n h _; exact h
  | succ d ih =>
      intro n h hins
      have h1 : p ∉ stateAfter q0 (ops.take (n + d)) :=
        ih n h (fun m hm1 hm2 => hins m hm1 (by omega))
      have : n + (d + 1) = (n + d) + 1 := by omega
      rw [this, stateAfter_take_succ]
      cases hop : ops[n + d]? with
      | none => exact h1
      | some op =>
          refine qStep_not_mem _ _ _ h1 ?_
          intro heq
          exact hins (n + d) (by omega) (by omega) (by rw [hop, heq])

/-- C3: over any sequence of queue operations, `pop_next_labeling_job` never
returns the same `(metadata_id, question_id)` pair at two different calls
unless an insert of that pair lies between them (the popped row is deleted
before the transaction commits); popping an empty queue returns `None` and
leaves the queue empty rather than raising. -/
theorem pop_next_labeling_job_no_redelivery :
    (∀ (q0 : List Job) (ops : List QOp) (i j : ℕ) (p : Job), i < j →
        popOutputAt q0 ops i = some p → popOutputAt q0 ops j = some p →
        ∃ k, i < k ∧ k < j ∧ ops[k]? = some (QOp.ins p)) ∧
      ∀ q : List Job, q = [] → popNextLabelingJob q = (none, []) := by
  constructor
  · intro q0 ops i j p hij hi hj
    by_contra hno
    push_neg at hno
    unfold popOutputAt at hi hj
    have hopi : ops[i]? = some QOp.pop := by
      cases hoi : ops[i]? with
      | none => rw [hoi] at hi; cases hi
      | some op =>
          cases op with
          | ins a => rw [hoi] at hi; cases hi
          | pop => rfl
    have hopj : ops[j]? = some QOp.pop := by
      cases hoj : ops[j]? with
      | none => rw [hoj] at hj; cases hj
      | some op =>
          cases op with
          | ins a => rw [hoj] at hj; cases hj
          | pop => rfl
    rw [hopi] at hi
    rw [hopj] at hj
    simp only at hi hj
    have hmem : p ∈ stateAfter q0 (ops.take j) := pop_fst_mem _ _ hj
    have hgone : p ∉ stateAfter q0 (ops.take (i + 1)) := by
      rw [stateAfter_take_succ, hopi]
      exact pop_fst_not_mem_snd _ _ hi
    have hnever : p ∉ stateAfter q0 (ops.take ((i + 1) + (j - (i + 1)))) := by
      refine not_mem_stateAfter_of_no_ins q0 ops p (j - (i + 1)) (i + 1) hgone ?_
      intro m hm1 hm2 heq
      exact hno m (by omega) (by omega) heq
    have : (i + 1) + (j - (i + 1)) = j := by omega
    rw [this] at hnever
    exact hnever hmem
  · intro q h
    subst h
    rfl

/-- Witness for C3: in the run `ins (a,1); pop; ins (a,1); pop` both pops
return `(a,1)` and indeed an insert of `(a,1)` lies strictly between them;
and popping the empty queue yields `None`. -/
theorem pop_next_labeling_job_no_redelivery_witness :
    (∃ k, 1 < k ∧ k < 3 ∧
        ([QOp.ins ("a", 1), QOp.pop, QOp.ins ("a", 1), QOp.pop])[k]? =
          some (QOp.ins ("a", 1))) ∧
      popNextLabelingJob [] = (none, []) :=
  ⟨pop_next_labeling_job_no_redelivery.1 []
      [QOp.ins ("a", 1), QOp.pop, QOp.ins ("a", 1), QOp.pop] 1 3 ("a", 1)
      (by decide) (by decide) (by decide),
    pop_next_labeling_job_no_redelivery.2 [] rfl⟩

theorem jobLe_refl (a : Job) : jobLe a a :=
  Or.inr ⟨rfl, le_refl _⟩

theorem jobLe_total (a b : Job) : jobLe a b ∨ jobLe b a := by
  unfold jobLe
  rcases lt_trichotomy a.1 b.1 with h | h | h
  · exact Or.inl (Or.inl h)
  · rcases le_total a.2 b.2 with h2 | h2
    · exact Or.inl (Or.inr ⟨h, h2⟩)
    · exact Or.inr (Or.inr ⟨h.symm, h2⟩)
  · exact Or.inr (Or.inl h)

theorem jobLe_trans (a b c : Job) (h1 : jobLe a b) (h2 : jobLe b c) :
    jobLe a c := by
  unfold jobLe at h1 h2 ⊢
  rcases h1 with h1 | ⟨h1e, h1le⟩ <;> rcases h2 with h2 | ⟨h2e, h2le⟩
  · exact Or.inl (lt_trans h1 h2)
  · exact Or.inl (h2e ▸ h1)
  · exact Or.inl (h1e ▸ h2)
  · exact Or.inr ⟨h1e.trans h2e, le_trans h1le h2le⟩

theorem foldMin_le (a : Job) (l : List Job) :
    ∀ x ∈ a :: l, jobLe (l.foldl (fun acc y => if jobLe y acc then y else acc) a) x := by
  induction l generalizing a with
  | nil =>
      intro x hx
      rw [List.mem_singleton.mp hx]
      exact jobLe_refl _
  | cons y ys ih =>
      intro x hx
      simp only [List.foldl_cons]
      have ihash := ih (if jobLe y a then y else a)
      have hhead : jobLe (ys.foldl (fun acc z => if jobLe z acc then z else acc)
          (if jobLe y a then y else a)) (if jobLe y a then y else a) :=
        ihash _ (List.mem_cons_self _ _)
      rcases List.mem_cons.mp hx with hxa | hx2
      · rw [hxa]
        by_cases hya : jobLe y a
        · rw [if_pos hya] at hhead ⊢
          exact jobLe_trans _ _ _ hhead hya
        · rw [if_neg hya] at hhead ⊢
          exact hhead
      rcases List.mem_cons.mp hx2 with hxy | hx3
      · rw [hxy]
        by_cases hya : jobLe y a
        · rw [if_pos hya] at hhead ⊢
          exact hhead
        · rw [if_neg hya] at hhead ⊢
          rcases jobLe_total y a with h | h
          · exact absurd h hya
          · exact jobLe_trans _ _ _ hhead h
      · exact ihash x (List.mem_cons_of_mem _ hx3)

/-- C9: on a non-empty queue, `pop_next_labeling_job` returns (and deletes)
exactly the row that is least in the lexicographic `(metadata_id,
question_id)` order — dequeue order is determined by the keys, not by
insertion order. -/
theorem pop_next_labeling_job_returns_lex_least (q : List Job) (hne : q ≠ []) :
    ∃ m, popNextLabelingJob q = (some m, q.filter (fun x => x ≠ m)) ∧ m ∈ q ∧
      ∀ x ∈ q, jobLe m x := by
  cases q with
  | nil => exact absurd rfl hne
  | cons a rest =>
      exact ⟨rest.foldl (fun acc y => if jobLe y acc then y else acc) a, rfl,
        foldMin_mem a rest, foldMin_le a rest⟩

/-- Witness for C9: on the queue holding `(b,1)` then `(a,1)` — inserted in
that order — the pop returns the lexicographically least pair, not the first
inserted one. -/
theorem pop_next_labeling_job_returns_lex_least_witness :
    ∃ m, popNextLabelingJob [("b", 1), ("a", 1)] =
        (some m, [("b", 1), ("a", 1)].filter (fun x => x ≠ m)) ∧
      m ∈ [("b", 1), ("a", 1)] ∧ ∀ x ∈ [("b", 1), ("a", 1)], jobLe m x :=
  pop_next_labeling_job_returns_lex_least [("b", 1), ("a", 1)] (by decide)

theorem divInt_num_den_mul_100 (q : ℚ) :
    Rat.divInt q.num ((q.den : ℤ) * 100) = q / 100 := by
  rw [Rat.divInt_eq_div]
  push_cast
  rw [div_mul_eq_div_div, Rat.num_div_den]

theorem scaleClampConfidence_of_le_one (q : ℚ) (h0 : 0 ≤ q) (h1 : q ≤ 1) :
    scaleClampConfidence q = q := by
  unfold scaleClampConfidence
  simp only
  rw [if_neg (fun hc => absurd (lt_of_lt_of_le hc.1 h1) (lt_irrefl 1))]
  rw [min_eq_right h1, max_eq_right h0]

theorem scaleClampConfidence_percent (q : ℚ) (h1 : 1 < q) (h100 : q ≤ 100) :
    scaleClampConfidence q = q / 100 := by
  unfold scaleClampConfidence
  simp only
  rw [if_pos ⟨h1, h100⟩, divInt_num_den_mul_100]
  rw [min_eq_right ((div_le_one (by norm_num)).mpr h100)]
  rw [max_eq_right (div_nonneg (by linarith) (by norm_num))]

theorem scaleClampConfidence_mem_unit (q : ℚ) :
    0 ≤ scaleClampConfidence q ∧ scaleClampConfidence q ≤ 1 := by
  unfold scaleClampConfidence
  exact ⟨le_max_left _ _, max_le (by norm_num) (min_le_left _ _)⟩

/-- C6: a numeric confidence already in `[0,1]` passes through unchanged, a
numeric confidence in `(1,100]` is divided by 100, every numeric confidence
(negative or above 100 included) is coerced into `[0,1]`, and non-numeric
confidences become unknown. -/
theorem coerce_confidence_unit_interval :
    (∀ q : ℚ,
      (0 ≤ q ∧ q ≤ 1 → coerceConfidence (some (Json.numVal q)) = some q) ∧
      (1 < q ∧ q ≤ 100 → coerceConfidence (some (Json.numVal q)) = some (q / 100)) ∧
      (∀ r : ℚ, coerceConfidence (some (Json.numVal q)) = some r → 0 ≤ r ∧ r ≤ 1)) ∧
    (∀ s : List Char, pyFloatOfStr s = none →
      coerceConfidence (some (Json.strVal s)) = none) ∧
    coerceConfidence (some Json.nullVal) = none ∧
    coerceConfidence none = none ∧
    (∀ xs, coerceConfidence (some (Json.arrVal xs)) = none) ∧
    (∀ fs, coerceConfidence (some (Json.objVal fs)) = none) := by
  refine ⟨fun q => ⟨?_, ?_, ?_⟩, ?_, rfl, rfl, fun xs => rfl, fun fs => rfl⟩
  · intro h
    show some (scaleClampConfidence q) = some q
    rw [scaleClampConfidence_of_le_one q h.1 h.2]
  · intro h
    show some (scaleClampConfidence q) = some (q / 100)
    rw [scaleClampConfidence_percent q h.1 h.2]
  · intro r hr
    have hrq : scaleClampConfidence q = r := Option.some_inj.mp hr
    rw [← hrq]
    exact scaleClampConfidence_mem_unit q
  · intro s h
    show (match pyFloatOfStr s with
      | some q => some (scaleClampConfidence q)
      | none => none) = none
    rw [h]

/-- Witness for C6: the backend confidence 85 is coerced to `85/100`, which
lies in `[0,1]`. -/
theorem coerce_confidence_unit_interval_witness :
    coerceConfidence (some (Json.numVal 85)) = some ((85 : ℚ) / 100) ∧
      (0 ≤ (85 : ℚ) / 100 ∧ (85 : ℚ) / 100 ≤ 1) :=
  ⟨(coerce_confidence_unit_interval.1 85).2.1 (by norm_num),
    (coerce_confidence_unit_interval.1 85).2.2 ((85 : ℚ) / 100)
      ((coerce_confidence_unit_interval.1 85).2.1 (by norm_num))⟩

/-- Counterexample to C5: the parse does not strip fenced-code wrappers — the
fenced copy of `{"answer": true, "confidence": 0.9}` yields `(true, None)`
(the confidence is lost) while the unfenced copy yields `(true, 0.9)`, so a
fenced JSON response does not produce the same `(answer, confidence)`
verdict as the unfenced one. -/
theorem parse_structured_fenced_counterexample :
    parseStructured ("\x7b\"answer\": true, \"confidence\": 0.9\x7d".toList) =
        (some true, some (mkRat 9 10)) ∧
      mkRat 9 10 = (9 : ℚ) / 10 ∧
      parseStructured
          ("```json\n\x7b\"answer\": true, \"confidence\": 0.9\x7d\n```".toList) =
        (some true, none) ∧
      parseStructured
          ("```json\n\x7b\"answer\": true, \"confidence\": 0.9\x7d\n```".toList) ≠
        parseStructured ("\x7b\"answer\": true, \"confidence\": 0.9\x7d".toList) := by
  refine ⟨by decide, ?_, by decide, by decide⟩
  rw [Rat.mkRat_eq_div]
  norm_num

/-- C5 amended: the parse attempts strict JSON directly with no fence
stripping; boolean-like strings are coerced (`"true"/"yes"` → true,
`"false"/"no"` → false) and unrecognized shapes give unknown; when the text
is not valid JSON — a fenced response in particular — the parse falls back
to the substring scan with an unknown confidence, which recovers the answer
of a fenced JSON body containing `"answer": true`. -/
theorem parse_structured_no_fence_stripping :
    (∀ s : List Char,
      (pyLower (pyStrip s) = "true".toList ∨ pyLower (pyStrip s) = "yes".toList →
        coerceAnswerBool (some (Json.strVal s)) = some true) ∧
      (pyLower (pyStrip s) = "false".toList ∨ pyLower (pyStrip s) = "no".toList →
        coerceAnswerBool (some (Json.strVal s)) = some false)) ∧
      (∀ q : ℚ, coerceAnswerBool (some (Json.numVal q)) = none) ∧
      coerceAnswerBool (some Json.nullVal) = none ∧
      coerceAnswerBool none = none ∧
      (∀ text : List Char, (jsonLoads text).isNone = true →
        parseStructured text = (parseAnswer text, none)) ∧
      (jsonLoads ("```json\n\x7b\"answer\": true\x7d\n```".toList)).isNone = true ∧
      parseAnswer ("```json\n\x7b\"answer\": true\x7d\n```".toList) = some true := by
  refine ⟨fun s => ⟨?_, ?_⟩, fun q => rfl, rfl, rfl, ?_, by decide, by decide⟩
  · intro h
    show (if pyLower (pyStrip s) = "true".toList ∨ pyLower (pyStrip s) = "yes".toList ∨
        pyLower (pyStrip s) = "ja".toList then some true
      else if pyLower (pyStrip s) = "false".toList ∨ pyLower (pyStrip s) = "no".toList ∨
        pyLower (pyStrip s) = "nee".toList then some false
      else none) = some true
    rcases h with h | h <;> rw [h] <;> decide
  · intro h
    show (if pyLower (pyStrip s) = "true".toList ∨ pyLower (pyStrip s) = "yes".toList ∨
        pyLower (pyStrip s) = "ja".toList then some true
      else if pyLower (pyStrip s) = "false".toList ∨ pyLower (pyStrip s) = "no".toList ∨
        pyLower (pyStrip s) = "nee".toList then some false
      else none) = some false
    rcases h with h | h <;> rw [h] <;> decide
  · intro text h
    have h2 : jsonLoads text = none := Option.isNone_iff_eq_none.mp h
    unfold parseStructured
    rw [h2]

/-- Witness for the amended C5: the string answer `" YES "` coerces to true,
and the fenced response falls back to the scan with unknown confidence. -/
theorem parse_structured_no_fence_stripping_witness :
    coerceAnswerBool (some (Json.strVal (" YES ".toList))) = some true ∧
      parseStructured ("```json\n\x7b\"answer\": true\x7d\n```".toList) =
        (parseAnswer ("```json\n\x7b\"answer\": true\x7d\n```".toList), none) :=
  ⟨(parse_structured_no_fence_stripping.1 (" YES ".toList)).1 (Or.inr (by decide)),
    parse_structured_no_fence_stripping.2.2.2.2.1
      ("```json\n\x7b\"answer\": true\x7d\n```".toList) (by decide)⟩

/-- Total number of jobs tracked by a consumer state. -/
theorem consumerStep_preserves_total (s t : ConsumerState) (h : ConsumerStep s t) :
    t.pending.length + t.spawned.length + t.inFlight.length + t.finished.length =
      s.pending.length + s.spawned.length + s.inFlight.length + s.finished.length := by
  cases h <;> simp <;> omega

/-- Counterexample to C1: with a ceiling of 1 and two enriched jobs, the
consumer — which creates one classify task per dequeued item with no
limiter — reaches a state with two backend calls in flight, so the number of
in-flight classification calls is not bounded by the configured ceiling. -/
theorem consumer_concurrency_exceeds_ceiling_counterexample :
    ¬ ∀ s : ConsumerState, ConsumerReachable (initConsumer [0, 1]) s →
        s.inFlight.length ≤ 1 := by
  intro h
  have h1 : ConsumerReachable (initConsumer [0, 1]) ⟨[1], [0], [], []⟩ :=
    Relation.ReflTransGen.single (ConsumerStep.take 0 [1] [] [] [])
  have h2 : ConsumerReachable (initConsumer [0, 1]) ⟨[], [0, 1], [], []⟩ :=
    h1.tail (ConsumerStep.take 1 [] [0] [] [])
  have h3 : ConsumerReachable (initConsumer [0, 1]) ⟨[], [1], [0], []⟩ :=
    h2.tail (ConsumerStep.start [] [] [1] 0 [] [])
  have h4 : ConsumerReachable (initConsumer [0, 1]) ⟨[], [], [0, 1], []⟩ :=
    h3.tail (ConsumerStep.start [] [] [] 1 [0] [])
  have := h ⟨[], [], [0, 1], []⟩ h4
  simp at this

/-- C1 amended: the consumer stage applies no concurrency ceiling — the
number of simultaneously in-flight classification backend calls is bounded
only by the number of enriched jobs of the batch (every job spawns at most
one classify task), and for N jobs all N calls can be in flight at once. -/
theorem consumer_in_flight_bounded_by_batch (jobs : List ℕ) (s : ConsumerState)
    (h : ConsumerReachable (initConsumer jobs) s) :
    s.inFlight.length ≤ jobs.length := by
  have htot : s.pending.length + s.spawned.length + s.inFlight.length +
      s.finished.length = jobs.length := by
    induction h with
    | refl => simp [initConsumer]
    | tail _ hstep ih => rw [consumerStep_preserves_total _ _ hstep]; exact ih
  omega

/-- Witness for the amended C1. -/
theorem consumer_in_flight_bounded_by_batch_witness :
    (⟨[], [], [5, 6, 7], []⟩ : ConsumerState).inFlight.length ≤
      [5, 6, 7].length :=
  consumer_in_flight_bounded_by_batch [5, 6, 7] ⟨[], [], [5, 6, 7], []⟩
    (by
      have h1 : ConsumerReachable (initConsumer [5, 6, 7]) ⟨[6, 7], [5], [], []⟩ :=
        Relation.ReflTransGen.single (ConsumerStep.take 5 [6, 7] [] [] [])
      have h2 : ConsumerReachable (initConsumer [5, 6, 7]) ⟨[7], [5, 6], [], []⟩ :=
        h1.tail (ConsumerStep.take 6 [7] [5] [] [])
      have h3 : ConsumerReachable (initConsumer [5, 6, 7]) ⟨[], [5, 6, 7], [], []⟩ :=
        h2.tail (ConsumerStep.take 7 [] [5, 6] [] [])
      have h4 : ConsumerReachable (initConsumer [5, 6, 7]) ⟨[], [6, 7], [5], []⟩ :=
        h3.tail (ConsumerStep.start [] [] [6, 7] 5 [] [])
      have h5 : ConsumerReachable (initConsumer [5, 6, 7]) ⟨[], [7], [5, 6], []⟩ :=
        h4.tail (ConsumerStep.start [] [] [7] 6 [5] [])
      exact h5.tail (ConsumerStep.start [] [] [] 7 [5, 6] []))

end Metastudy
